import Mathlib

/-!
Verification of the AEMS efficiency tracker (`script.js`).

The JavaScript numbers that occur in the tracker are modelled as rationals
(every JavaScript float literal and every intermediate value reached by the
claims is a rational; we idealise float rounding away).  The forecasting
routine also manipulates the IEEE special values `Infinity`, `-Infinity` and
`NaN` (produced by `Math.log` at 0 and negatives and by divisions involving
infinities), so its values are modelled by a dedicated type `JsNum` whose
finite values are real numbers; the sign of zero is abstracted away (a JS
`-0` is modelled as `0`, which is equal to `-0` as a number).
-/

/-- State of `EfficiencyMonitor` (script.js:2-12): the five instance fields. -/
structure EfficiencyMonitor where
  targetEfficiency : ℚ
  alpha : ℚ
  maxDailySeverity : ℚ
  currentEfficiency : ℚ
  dayCount : ℕ
deriving DecidableEq

/-- The constructor (script.js:3-12).  The thrown `Error` for an out-of-range
smoothing factor is modelled as `none`; on success the fields are initialised
from the arguments and `dayCount = 0`. -/
def EfficiencyMonitor.construct (targetEfficiency smoothingFactor initialEfficiency
    maxDailySeverity : ℚ) : Option EfficiencyMonitor :=
  if smoothingFactor ≤ 0 ∨ 1 < smoothingFactor then none
  else some
    { targetEfficiency := targetEfficiency
      alpha := smoothingFactor
      maxDailySeverity := maxDailySeverity
      currentEfficiency := initialEfficiency
      dayCount := 0 }

/-- `severityHyperparams[event] || 0` (script.js:16): association-list lookup,
an absent key (and a stored 0, which `|| 0` maps to 0 as well) contributes 0. -/
def severityLookup (pr : List (String × ℚ)) (e : String) : ℚ :=
  (pr.lookup e).getD 0

/-- `events.reduce((sum, event) => sum + (severityHyperparams[event] || 0), 0)`
(script.js:16). -/
def severitySum (events : List String) (pr : List (String × ℚ)) : ℚ :=
  events.foldl (fun s e => s + severityLookup pr e) 0

/-- The record returned by `processDay` (script.js:28-34). -/
structure DayReport where
  day : ℕ
  events : List String
  severity : ℚ
  dailyPerf : ℚ
  newEfficiency : ℚ
deriving DecidableEq

/-- `calculateDailyPerformance` (script.js:14-21): returns the pair
`(totalDailySeverity, dailyPerformanceScore)`. -/
def calculateDailyPerformance (m : EfficiencyMonitor) (events : List String)
    (pr : List (String × ℚ)) : ℚ × ℚ :=
  let totalDailySeverity := min (severitySum events pr) m.maxDailySeverity
  (totalDailySeverity, 1 - totalDailySeverity / m.maxDailySeverity)

/-- `processDay` (script.js:23-35).  The mutation of `this` is modelled by
returning the updated state next to the report. -/
def processDay (m : EfficiencyMonitor) (events : List String)
    (pr : List (String × ℚ)) : EfficiencyMonitor × DayReport :=
  let newDayCount := m.dayCount + 1
  let sp := calculateDailyPerformance m events pr
  let newEff := m.alpha * sp.2 + (1 - m.alpha) * m.currentEfficiency
  ({ m with currentEfficiency := newEff, dayCount := newDayCount },
   { day := newDayCount, events := events, severity := sp.1,
     dailyPerf := sp.2, newEfficiency := newEff })

/-- `Math.max(0, 1 - (badEvents / duration))` (script.js:62, 143, 263). -/
def initialEff (badEvents duration : ℚ) : ℚ :=
  max 0 (1 - badEvents / duration)

section JsArith

open scoped Classical

/-- A JavaScript number as used inside `forecastDaysToReachGoal`: a finite
real, one of the two infinities, or `NaN`.  The sign of a zero is abstracted. -/
inductive JsNum where
  | fin (x : ℝ)
  | posInf
  | negInf
  | nan

/-- The result of `Math.ceil` applied to a JavaScript number: an integer
(`Math.ceil` of a finite float is integral), an infinity, or `NaN`. -/
inductive ForecastResult where
  | val (n : ℤ)
  | posInf
  | negInf
  | nan
deriving DecidableEq

/-- JavaScript division of two finite numbers (the inner division
`(1 - target) / (1 - current)` at script.js:42): finite quotient when the
divisor is nonzero, otherwise a signed infinity or `NaN` per IEEE-754. -/
noncomputable def jsDivQ (x y : ℚ) : JsNum :=
  if y = 0 then
    if 0 < x then JsNum.posInf else if x < 0 then JsNum.negInf else JsNum.nan
  else JsNum.fin ((x / y : ℚ) : ℝ)

/-- `Math.log` (script.js:42-43): real logarithm on positives, `-Infinity`
at 0, `NaN` on negatives, and the IEEE extensions on specials.  It never
throws, so the `try`/`catch` at script.js:41-47 is dead code. -/
noncomputable def jsLog : JsNum → JsNum
  | JsNum.fin x =>
      if 0 < x then JsNum.fin (Real.log x)
      else if x = 0 then JsNum.negInf else JsNum.nan
  | JsNum.posInf => JsNum.posInf
  | JsNum.negInf => JsNum.nan
  | JsNum.nan => JsNum.nan

/-- JavaScript division `numerator / denominator` (script.js:44) on possibly
special values, per IEEE-754 (zero signs abstracted: a finite value divided
by an infinity is `0`, and division by `0` uses the sign of the dividend). -/
noncomputable def jsDiv : JsNum → JsNum → JsNum
  | JsNum.nan, _ => JsNum.nan
  | _, JsNum.nan => JsNum.nan
  | JsNum.fin x, JsNum.fin y =>
      if y = 0 then
        if 0 < x then JsNum.posInf else if x < 0 then JsNum.negInf else JsNum.nan
      else JsNum.fin (x / y)
  | JsNum.fin _, JsNum.posInf => JsNum.fin 0
  | JsNum.fin _, JsNum.negInf => JsNum.fin 0
  | JsNum.posInf, JsNum.fin y => if 0 ≤ y then JsNum.posInf else JsNum.negInf
  | JsNum.negInf, JsNum.fin y => if 0 ≤ y then JsNum.negInf else JsNum.posInf
  | JsNum.posInf, JsNum.posInf => JsNum.nan
  | JsNum.posInf, JsNum.negInf => JsNum.nan
  | JsNum.negInf, JsNum.posInf => JsNum.nan
  | JsNum.negInf, JsNum.negInf => JsNum.nan

/-- `Math.ceil` (script.js:44): ceiling on finite values, identity on the
specials. -/
noncomputable def jsCeil : JsNum → ForecastResult
  | JsNum.fin x => ForecastResult.val ⌈x⌉
  | JsNum.posInf => ForecastResult.posInf
  | JsNum.negInf => ForecastResult.negInf
  | JsNum.nan => ForecastResult.nan

/-- `forecastDaysToReachGoal` (script.js:37-48).  The method reads but never
writes the instance fields, so its effect on the state is the identity; the
pair returns the result together with the (unchanged) state. -/
noncomputable def forecastDaysToReachGoal (m : EfficiencyMonitor) :
    ForecastResult × EfficiencyMonitor :=
  (if m.targetEfficiency ≤ m.currentEfficiency then ForecastResult.val 0
   else
     jsCeil (jsDiv
       (jsLog (jsDivQ (1 - m.targetEfficiency) (1 - m.currentEfficiency)))
       (jsLog (JsNum.fin ((1 - m.alpha : ℚ) : ℝ)))),
   m)

end JsArith

/-- The inner day loop of a run (script.js:292-295 and 180-183): fold
`processDay` over `numDays` days, the events of day `d` supplied by the
sampler `ev d` (randomness is passed in as an explicit oracle). -/
def runDays (m0 : EfficiencyMonitor) (pr : List (String × ℚ))
    (ev : ℕ → List String) (numDays : ℕ) : EfficiencyMonitor :=
  (List.range numDays).foldl (fun m day => (processDay m (ev day) pr).1) m0

/-- One entry of `runData` (script.js:296-300). -/
structure RunOutcome where
  simulation_id : ℕ
  final_efficiency : ℚ
  days_to_goal : ForecastResult
deriving DecidableEq

/-- The body of the ensemble loop (script.js:290-301): run `simId` drives a
fresh copy of `m0` for `simDays` days with run-local random events
(`ev simId day`) and records the final efficiency and the forecast. -/
noncomputable def runOutcomes (nRuns simDays : ℕ) (m0 : EfficiencyMonitor)
    (pr : List (String × ℚ)) (ev : ℕ → ℕ → List String) : List RunOutcome :=
  (List.range nRuns).map (fun simId =>
    { simulation_id := simId
      final_efficiency := (runDays m0 pr (ev simId) simDays).currentEfficiency
      days_to_goal :=
        (forecastDaysToReachGoal (runDays m0 pr (ev simId) simDays)).1 })

/-- The ensemble runner `runMultipleSimulations` (script.js:258-312): each
run constructs a fresh monitor from the same four arguments.  A constructor
failure throws out of the whole function (script.js:309-311), modelled by
`none`; since every iteration constructs from identical arguments, the
single `construct` here is equivalent. -/
noncomputable def runMultipleSimulations (nRuns simDays : ℕ)
    (targetEfficiency smoothingFactor initialEfficiency maxSeverity : ℚ)
    (pr : List (String × ℚ)) (ev : ℕ → ℕ → List String) :
    Option (List RunOutcome) :=
  match EfficiencyMonitor.construct targetEfficiency smoothingFactor
      initialEfficiency maxSeverity with
  | none => none
  | some m0 => some (runOutcomes nRuns simDays m0 pr ev)

/-- A histogram bin label (script.js:471, 480, 486).  `toFixed(1)` display
formatting is abstracted to the underlying numbers: `range lo hi` stands for
the string `lo-hi`, `top v` for `v+`, `single v` for `v` alone. -/
inductive BinLabel where
  | range (lo hi : ℚ)
  | top (v : ℚ)
  | single (v : ℚ)
deriving DecidableEq

/-- One histogram bin (script.js:470-487): `hi = none` models the final
bin's `max: Infinity`. -/
structure HBin where
  label : BinLabel
  count : ℕ
  lo : ℚ
  hi : Option ℚ
deriving DecidableEq

/-- `value < bins[i].max` (script.js:492) where the bound may be `Infinity`. -/
def ltHiB (v : ℚ) : Option ℚ → Bool
  | none => true
  | some h => decide (v < h)

/-- The membership test `value >= bins[i].min && value < bins[i].max`
(script.js:492). -/
def binMem (b : HBin) (v : ℚ) : Bool :=
  decide (b.lo ≤ v) && ltHiB v b.hi

/-- The inner `for` loop of script.js:491-497: increment the first matching
bin; `none` when no bin matches. -/
def incFirst (v : ℚ) : List HBin → Option (List HBin)
  | [] => none
  | b :: bs =>
      if binMem b v then some ({ b with count := b.count + 1 } :: bs)
      else (incFirst v bs).map (fun bs2 => b :: bs2)

/-- `bins[bins.length - 1].count++` (script.js:499). -/
def incLast : List HBin → List HBin
  | [] => []
  | [b] => [{ b with count := b.count + 1 }]
  | b :: b2 :: bs => b :: incLast (b2 :: bs)

/-- The body of `data.forEach` (script.js:489-501): first-match increment,
falling back to the last bin when no bin matched and `value >= max`. -/
def addValue (mx : ℚ) (bins : List HBin) (v : ℚ) : List HBin :=
  match incFirst v bins with
  | some bins2 => bins2
  | none => if mx ≤ v then incLast bins else bins

/-- The regular bins built by the first loop (script.js:467-476). -/
def baseBins (mn binSize : ℚ) (numBins : ℕ) : List HBin :=
  (List.range numBins).map (fun (i : ℕ) =>
    { label := BinLabel.range (mn + (i : ℚ) * binSize) (mn + ((i : ℚ) + 1) * binSize)
      count := 0
      lo := mn + (i : ℚ) * binSize
      hi := some (mn + ((i : ℚ) + 1) * binSize) })

/-- The bin list before counting (script.js:467-487): the regular bins plus
the final `max+` bin when `binSize > 0`; otherwise `bins[0]` is overwritten
with the degenerate single-value bin (the remaining regular bins stay). -/
def histBins (mn mx : ℚ) (numBins : ℕ) : List HBin :=
  if 0 < (mx - mn) / numBins then
    baseBins mn ((mx - mn) / numBins) numBins ++
      [{ label := BinLabel.top mx, count := 0, lo := mx, hi := none }]
  else
    { label := BinLabel.single mn, count := 0, lo := mn, hi := some mn } ::
      (baseBins mn ((mx - mn) / numBins) numBins).tail

/-- `createHistogramData` (script.js:460-504).  `Math.min(...data)` and
`Math.max(...data)` are the folds of `min`/`max` over the data. -/
def createHistogramData (data : List ℚ) (numBins : ℕ) : List HBin :=
  match data with
  | [] => []
  | d :: ds =>
      (d :: ds).foldl (addValue (ds.foldl max d))
        (histBins (ds.foldl min d) (ds.foldl max d) numBins)

/-- Total of the bin counts of a histogram. -/
def sumCounts (bins : List HBin) : ℕ :=
  (bins.map HBin.count).sum

/-- The lower/upper bounds of the bins, without the counts. -/
def binShape (bins : List HBin) : List (ℚ × Option ℚ) :=
  bins.map (fun b => (b.lo, b.hi))

/-- The membership test on a bare (lower, upper) bound pair. -/
def pairMem (v : ℚ) (p : ℚ × Option ℚ) : Bool :=
  decide (p.1 ≤ v) && ltHiB v p.2

/-- The line-chart series for final efficiencies handed to the renderer
(script.js:424): the raw per-run values, `runData.map(d => d.final_efficiency * 100)`.
No smoothing is applied to it anywhere in the renderer. -/
def effLineSeries (runData : List RunOutcome) : List ℚ :=
  runData.map (fun d => d.final_efficiency * 100)

/-- The trailing windows of width `w`: one average per position while at
least `w` points remain. -/
def movAux (w : ℕ) : List ℚ → List ℚ
  | [] => []
  | x :: xs =>
      if w ≤ xs.length + 1 then ((x :: xs).take w).sum / w :: movAux w xs
      else []

/-- Modelled from the spec: no moving-average smoothing exists anywhere in
`script.js` (the renderer `renderCharts`, script.js:364-458, plots raw
series), so this follows the spec's words — "a simple trailing window
average of size w", returning "the input unchanged" when `w > n` or
`w <= 1`. -/
def movingAverage (xs : List ℚ) (w : ℕ) : List ℚ :=
  if w ≤ 1 ∨ xs.length < w then xs else movAux w xs

/-- The window size the spec prescribes for smoothing an ensemble of
`numRuns` runs: `max(10, floor(numRuns/20))` (modelled from the spec, absent
from the source). -/
def smoothWindow (numRuns : ℕ) : ℕ :=
  max 10 (numRuns / 20)

/-- Concrete monitor of the spec's worked scenario: target `0.85`, alpha
`0.04`, max daily severity `10`, current efficiency `0.65`. -/
def scenarioMonitor : EfficiencyMonitor :=
  { targetEfficiency := 17/20, alpha := 1/25, maxDailySeverity := 10,
    currentEfficiency := 13/20, dayCount := 0 }

/-- Concrete events of the worked scenario, total severity `1 + 3 = 4`. -/
def scenarioEvents : List String := ["late", "miss"]

/-- Concrete severity profile of the worked scenario. -/
def scenarioProfile : List (String × ℚ) := [("late", 1), ("miss", 3)]

/-- A concrete ensemble result list of 101 identical outcomes, used to probe
the renderer's (absence of) smoothing above the 100-run threshold. -/
def outcomes101 : List RunOutcome :=
  List.replicate 101
    { simulation_id := 0, final_efficiency := 1/2,
      days_to_goal := ForecastResult.val 0 }

/-! ## Basic lemmas about the per-day update -/

theorem severityLookup_nonneg (e : String) :
    ∀ pr : List (String × ℚ), (∀ p ∈ pr, 0 ≤ p.2) → 0 ≤ severityLookup pr e := by
  intro pr
  induction pr with
  | nil => intro _; simp [severityLookup]
  | cons p tl ih =>
      intro h
      obtain ⟨k, v⟩ := p
      have hv : (0:ℚ) ≤ v := h (k, v) (by simp)
      have htl := ih (fun q hq => h q (by simp [hq]))
      by_cases hk : (e == k)
      · simpa [severityLookup, List.lookup, hk] using hv
      · simpa [severityLookup, List.lookup, hk] using htl

theorem foldl_add_map (f : String → ℚ) :
    ∀ (l : List String) (init : ℚ),
      l.foldl (fun s e => s + f e) init = init + (l.map f).sum := by
  intro l
  induction l with
  | nil => intro init; simp
  | cons x xs ih => intro init; simp [ih, add_assoc]

theorem severitySum_eq_sum (events : List String) (pr : List (String × ℚ)) :
    severitySum events pr = (events.map (severityLookup pr)).sum := by
  simpa [severitySum] using foldl_add_map (severityLookup pr) events 0

theorem severitySum_nonneg (events : List String) (pr : List (String × ℚ))
    (h : ∀ p ∈ pr, 0 ≤ p.2) : 0 ≤ severitySum events pr := by
  rw [severitySum_eq_sum]
  refine List.sum_nonneg ?_
  intro x hx
  obtain ⟨e, _, rfl⟩ := List.mem_map.1 hx
  exact severityLookup_nonneg e pr h

theorem dailyPerf_mem (m : EfficiencyMonitor) (events : List String)
    (pr : List (String × ℚ)) (hmax : 0 < m.maxDailySeverity)
    (hpr : ∀ p ∈ pr, 0 ≤ p.2) :
    0 ≤ (calculateDailyPerformance m events pr).2 ∧
      (calculateDailyPerformance m events pr).2 ≤ 1 := by
  have hs : 0 ≤ severitySum events pr := severitySum_nonneg events pr hpr
  have h0 : 0 ≤ min (severitySum events pr) m.maxDailySeverity :=
    le_min hs hmax.le
  have h1 : min (severitySum events pr) m.maxDailySeverity ≤ m.maxDailySeverity :=
    min_le_right _ _
  constructor
  · have := (div_le_one hmax).2 h1
    simp only [calculateDailyPerformance]
    linarith
  · have := div_nonneg h0 hmax.le
    simp only [calculateDailyPerformance]
    linarith

theorem processDay_fields (m : EfficiencyMonitor) (events : List String)
    (pr : List (String × ℚ)) :
    (processDay m events pr).1.targetEfficiency = m.targetEfficiency ∧
    (processDay m events pr).1.alpha = m.alpha ∧
    (processDay m events pr).1.maxDailySeverity = m.maxDailySeverity ∧
    (processDay m events pr).1.dayCount = m.dayCount + 1 ∧
    (processDay m events pr).1.currentEfficiency
      = m.alpha * (calculateDailyPerformance m events pr).2
        + (1 - m.alpha) * m.currentEfficiency :=
  ⟨rfl, rfl, rfl, rfl, rfl⟩

/-! ## Claim C1 -/

/-- Claim C1: `processDay` computes `S = min(profile severity sum, maxDailySeverity)`
(unknown labels contributing 0), the performance `P = 1 - S / maxDailySeverity`
which lies in `[0,1]` when the severities are non-negative and the cap is
positive, updates the efficiency to `alpha * P + (1 - alpha) * previous`, and
increments the day count by exactly 1; in the worked scenario (alpha `0.04`,
efficiency `0.65`, severity `4`, cap `10`) the performance is `0.6` and the
new efficiency is `0.648` (exactly, hence within `1e-9`). -/
theorem claim_C1 :
    (∀ (m : EfficiencyMonitor) (events : List String) (pr : List (String × ℚ)),
        0 < m.maxDailySeverity → (∀ p ∈ pr, 0 ≤ p.2) →
        ((processDay m events pr).2.severity
            = min (severitySum events pr) m.maxDailySeverity ∧
         (processDay m events pr).2.dailyPerf
            = 1 - min (severitySum events pr) m.maxDailySeverity
                / m.maxDailySeverity ∧
         0 ≤ (processDay m events pr).2.dailyPerf ∧
         (processDay m events pr).2.dailyPerf ≤ 1 ∧
         (processDay m events pr).1.currentEfficiency
            = m.alpha * (processDay m events pr).2.dailyPerf
              + (1 - m.alpha) * m.currentEfficiency ∧
         (processDay m events pr).1.dayCount = m.dayCount + 1)) ∧
    ((processDay scenarioMonitor scenarioEvents scenarioProfile).2.dailyPerf
        = 3/5 ∧
     (processDay scenarioMonitor scenarioEvents
        scenarioProfile).1.currentEfficiency = 81/125 ∧
     |(processDay scenarioMonitor scenarioEvents
         scenarioProfile).1.currentEfficiency - 0.648| ≤ 1/1000000000) := by
  constructor
  · intro m events pr hmax hpr
    have hb := dailyPerf_mem m events pr hmax hpr
    exact ⟨rfl, rfl, hb.1, hb.2, rfl, rfl⟩
  · refine ⟨?_, ?_, ?_⟩ <;>
      · simp [processDay, calculateDailyPerformance, severitySum, severityLookup,
          scenarioMonitor, scenarioEvents, scenarioProfile, List.lookup, min_def]
        norm_num

/-- Witness for C1: the general statement applied to the concrete scenario. -/
theorem claim_C1_wit :
    0 < scenarioMonitor.maxDailySeverity ∧
    ((processDay scenarioMonitor scenarioEvents scenarioProfile).2.severity
        = min (severitySum scenarioEvents scenarioProfile)
            scenarioMonitor.maxDailySeverity ∧
     (processDay scenarioMonitor scenarioEvents scenarioProfile).2.dailyPerf
        = 1 - min (severitySum scenarioEvents scenarioProfile)
              scenarioMonitor.maxDailySeverity
              / scenarioMonitor.maxDailySeverity ∧
     0 ≤ (processDay scenarioMonitor scenarioEvents
            scenarioProfile).2.dailyPerf ∧
     (processDay scenarioMonitor scenarioEvents
        scenarioProfile).2.dailyPerf ≤ 1 ∧
     (processDay scenarioMonitor scenarioEvents
        scenarioProfile).1.currentEfficiency
        = scenarioMonitor.alpha
            * (processDay scenarioMonitor scenarioEvents
                scenarioProfile).2.dailyPerf
          + (1 - scenarioMonitor.alpha) * scenarioMonitor.currentEfficiency ∧
     (processDay scenarioMonitor scenarioEvents
        scenarioProfile).1.dayCount = scenarioMonitor.dayCount + 1) :=
  ⟨by norm_num [scenarioMonitor],
   claim_C1.1 scenarioMonitor scenarioEvents scenarioProfile
     (by norm_num [scenarioMonitor])
     (by intro p hp; simp [scenarioProfile] at hp
         rcases hp with h | h <;> rw [h] <;> norm_num)⟩

/-! ## Claim C8 -/

/-- Claim C8: constructing an `EfficiencyMonitor` fails exactly when the
smoothing factor is `≤ 0` or `> 1` (no tracker is produced then), and on
success the fields are initialised from the arguments with `dayCount = 0`. -/
theorem claim_C8 : ∀ t a i mx : ℚ,
    (EfficiencyMonitor.construct t a i mx = none ↔ (a ≤ 0 ∨ 1 < a)) ∧
    (0 < a → a ≤ 1 →
      EfficiencyMonitor.construct t a i mx
        = some { targetEfficiency := t, alpha := a, maxDailySeverity := mx,
                 currentEfficiency := i, dayCount := 0 }) := by
  intro t a i mx
  constructor
  · unfold EfficiencyMonitor.construct
    by_cases h : a ≤ 0 ∨ 1 < a
    · simp [h]
    · simp [h]
  · intro h1 h2
    unfold EfficiencyMonitor.construct
    rw [if_neg]
    simp only [not_or, not_le, not_lt]
    exact ⟨h1, h2⟩

/-- Witness for C8: a rejected construction (`alpha = 2`) and an accepted one
(`alpha = 1/2`). -/
theorem claim_C8_wit :
    EfficiencyMonitor.construct 1 2 (3/4) 10 = none ∧
    EfficiencyMonitor.construct 1 (1/2) (3/4) 10
      = some { targetEfficiency := 1, alpha := 1/2, maxDailySeverity := 10,
               currentEfficiency := 3/4, dayCount := 0 } :=
  ⟨(claim_C8 1 2 (3/4) 10).1.2 (by norm_num),
   (claim_C8 1 (1/2) (3/4) 10).2 (by norm_num) (by norm_num)⟩

/-! ## Claim C10 -/

/-- Claim C10: `forecastDaysToReachGoal` reads but never writes the tracker:
every field of the state after the call equals its value before. -/
theorem claim_C10 : ∀ m : EfficiencyMonitor,
    (forecastDaysToReachGoal m).2.targetEfficiency = m.targetEfficiency ∧
    (forecastDaysToReachGoal m).2.alpha = m.alpha ∧
    (forecastDaysToReachGoal m).2.maxDailySeverity = m.maxDailySeverity ∧
    (forecastDaysToReachGoal m).2.currentEfficiency = m.currentEfficiency ∧
    (forecastDaysToReachGoal m).2.dayCount = m.dayCount ∧
    (forecastDaysToReachGoal m).2 = m :=
  fun _ => ⟨rfl, rfl, rfl, rfl, rfl, rfl⟩

/-! ## Claims C3 and C4: the dead `try`/`catch` lets non-sentinel values leak -/

/-- Claim C3 (code bug): the claim — and the code's own `try`/`catch`, which
is dead because `Math.log` never throws — intend the `Infinity` sentinel for
`targetEfficiency = 1`, `currentEfficiency < 1`, every `alpha` in `(0,1]`.
At `alpha = 1` the code instead computes `ceil(log(0)/log(0)) =
ceil((-Infinity)/(-Infinity)) = NaN`: evaluated here on the tracker with
target `1`, alpha `1`, current efficiency `0.65`. -/
theorem claim_C3 :
    (forecastDaysToReachGoal
        { targetEfficiency := 1, alpha := 1, maxDailySeverity := 10,
          currentEfficiency := 13/20, dayCount := 0 }).1
      = ForecastResult.nan := by
  simp only [forecastDaysToReachGoal]
  rw [if_neg (by norm_num)]
  have e1 : jsDivQ (1 - 1 : ℚ) (1 - 13/20)
      = JsNum.fin (((1 - 1 : ℚ) / (1 - 13/20) : ℚ) : ℝ) := by
    unfold jsDivQ
    rw [if_neg (by norm_num)]
  rw [e1]
  have e2 : jsLog (JsNum.fin (((1 - 1 : ℚ) / (1 - 13/20) : ℚ) : ℝ))
      = JsNum.negInf := by
    simp only [jsLog]
    rw [if_neg (by norm_num), if_pos (by norm_num)]
  have e3 : jsLog (JsNum.fin ((1 - 1 : ℚ) : ℝ)) = JsNum.negInf := by
    simp only [jsLog]
    rw [if_neg (by norm_num), if_pos (by norm_num)]
  rw [e2, e3]
  simp only [jsDiv, jsCeil]

/-- Claim C4 (code bug): for `alpha = 1` and `currentEfficiency <
targetEfficiency < 1` the claim — and the spec — require the "unreachable"
sentinel, but the code computes `ceil(log(r)/log(0)) = ceil(-0) = 0`, a
finite number (indeed the "goal achieved" value) although the goal is not
reached: evaluated here on the tracker with target `0.75`, alpha `1`,
current efficiency `0.5`. -/
theorem claim_C4 :
    (forecastDaysToReachGoal
        { targetEfficiency := 3/4, alpha := 1, maxDailySeverity := 10,
          currentEfficiency := 1/2, dayCount := 0 }).1
      = ForecastResult.val 0 := by
  simp only [forecastDaysToReachGoal]
  rw [if_neg (by norm_num)]
  have e1 : jsDivQ (1 - 3/4 : ℚ) (1 - 1/2)
      = JsNum.fin (((1 - 3/4 : ℚ) / (1 - 1/2) : ℚ) : ℝ) := by
    unfold jsDivQ
    rw [if_neg (by norm_num)]
  rw [e1]
  have e2 : jsLog (JsNum.fin (((1 - 3/4 : ℚ) / (1 - 1/2) : ℚ) : ℝ))
      = JsNum.fin (Real.log (((1 - 3/4 : ℚ) / (1 - 1/2) : ℚ) : ℝ)) := by
    simp only [jsLog]
    rw [if_pos (by norm_num)]
  have e3 : jsLog (JsNum.fin ((1 - 1 : ℚ) : ℝ)) = JsNum.negInf := by
    simp only [jsLog]
    rw [if_neg (by norm_num), if_pos (by norm_num)]
  rw [e2, e3]
  simp only [jsDiv, jsCeil, Int.ceil_zero]

/-! ## Claim C2: boundary correctness of the forecast ceiling -/

theorem runDays_zero (m : EfficiencyMonitor) (pr : List (String × ℚ))
    (ev : ℕ → List String) : runDays m pr ev 0 = m := by
  simp [runDays]

theorem runDays_succ (m : EfficiencyMonitor) (pr : List (String × ℚ))
    (ev : ℕ → List String) (k : ℕ) :
    runDays m pr ev (k + 1) = (processDay (runDays m pr ev k) (ev k) pr).1 := by
  simp [runDays, List.range_succ]

theorem runDays_alpha (m : EfficiencyMonitor) (pr : List (String × ℚ))
    (ev : ℕ → List String) : ∀ k, (runDays m pr ev k).alpha = m.alpha := by
  intro k
  induction k with
  | zero => rw [runDays_zero]
  | succ k ih => rw [runDays_succ]; exact ih

theorem runDays_max (m : EfficiencyMonitor) (pr : List (String × ℚ))
    (ev : ℕ → List String) :
    ∀ k, (runDays m pr ev k).maxDailySeverity = m.maxDailySeverity := by
  intro k
  induction k with
  | zero => rw [runDays_zero]
  | succ k ih => rw [runDays_succ]; exact ih

theorem runDays_target (m : EfficiencyMonitor) (pr : List (String × ℚ))
    (ev : ℕ → List String) :
    ∀ k, (runDays m pr ev k).targetEfficiency = m.targetEfficiency := by
  intro k
  induction k with
  | zero => rw [runDays_zero]
  | succ k ih => rw [runDays_succ]; exact ih

/-- A day with no events has performance exactly 1 (severity sum 0, clamp
keeps it 0, `1 - 0/max = 1`) as long as the severity cap is positive. -/
theorem perfect_perf (m : EfficiencyMonitor) (pr : List (String × ℚ))
    (hmax : 0 < m.maxDailySeverity) :
    (calculateDailyPerformance m [] pr).2 = 1 := by
  simp [calculateDailyPerformance, severitySum, min_eq_left hmax.le]

/-- Closed form of the efficiency after `k` consecutive perfect (empty-event)
days: `1 - (1 - alpha)^k * (1 - initial)`. -/
theorem runDays_perfect_eff (m : EfficiencyMonitor) (pr : List (String × ℚ))
    (hmax : 0 < m.maxDailySeverity) :
    ∀ k : ℕ, (runDays m pr (fun _ => []) k).currentEfficiency
      = 1 - (1 - m.alpha) ^ k * (1 - m.currentEfficiency) := by
  intro k
  induction k with
  | zero => rw [runDays_zero]; ring
  | succ k ih =>
      rw [runDays_succ]
      have hmax2 : 0 < (runDays m pr (fun _ => []) k).maxDailySeverity := by
        rw [runDays_max]; exact hmax
      have hstep : (processDay (runDays m pr (fun _ => []) k) [] pr).1.currentEfficiency
          = (runDays m pr (fun _ => []) k).alpha
              * (calculateDailyPerformance (runDays m pr (fun _ => []) k) [] pr).2
            + (1 - (runDays m pr (fun _ => []) k).alpha)
              * (runDays m pr (fun _ => []) k).currentEfficiency := rfl
      rw [hstep, perfect_perf _ pr hmax2, runDays_alpha, ih]
      ring

/-- The efficiency after `k` perfect days reaches the target exactly when `k`
is at least `log((1-t)/(1-c)) / log(1-a)` — the quantity whose ceiling the
code returns. -/
theorem ewma_threshold_iff (c t a : ℚ) (hct : c < t) (ht1 : t < 1)
    (ha0 : 0 < a) (ha1 : a < 1) (k : ℕ) :
    t ≤ 1 - (1 - a) ^ k * (1 - c) ↔
      Real.log (((1 - t) / (1 - c) : ℚ)) / Real.log ((1 - a : ℚ)) ≤ (k : ℝ) := by
  have hc1 : c < 1 := hct.trans ht1
  have hT : (0:ℝ) < ((1 - t : ℚ) : ℝ) := by
    exact_mod_cast (by linarith : (0:ℚ) < 1 - t)
  have hC : (0:ℝ) < ((1 - c : ℚ) : ℝ) := by
    exact_mod_cast (by linarith : (0:ℚ) < 1 - c)
  have hA : (0:ℝ) < ((1 - a : ℚ) : ℝ) := by
    exact_mod_cast (by linarith : (0:ℚ) < 1 - a)
  have hA1 : ((1 - a : ℚ) : ℝ) < 1 := by
    exact_mod_cast (by linarith : (1 - a : ℚ) < 1)
  have hlogA : Real.log ((1 - a : ℚ) : ℝ) < 0 := Real.log_neg hA hA1
  have hcast : (((1 - t) / (1 - c) : ℚ) : ℝ) = ((1 - t : ℚ) : ℝ) / ((1 - c : ℚ) : ℝ) := by
    push_cast
    ring
  have step1 : (t ≤ 1 - (1 - a) ^ k * (1 - c)) ↔ ((1 - a) ^ k * (1 - c) ≤ 1 - t) := by
    constructor <;> intro h <;> linarith
  have step2 : ((1 - a) ^ k * (1 - c) ≤ 1 - t) ↔
      (((1 - a : ℚ) : ℝ) ^ k * ((1 - c : ℚ) : ℝ) ≤ ((1 - t : ℚ) : ℝ)) := by
    constructor
    · intro h
      exact_mod_cast h
    · intro h
      exact_mod_cast h
  have hpow : (0:ℝ) < ((1 - a : ℚ) : ℝ) ^ k := pow_pos hA k
  have hTC : (0:ℝ) < ((1 - t : ℚ) : ℝ) / ((1 - c : ℚ) : ℝ) := div_pos hT hC
  rw [step1, step2, ← le_div_iff₀ hC, ← Real.log_le_log_iff hpow hTC,
    Real.log_pow, hcast, div_le_iff_of_neg hlogA]

/-- Under the hypotheses of claim C2 the forecast is the ceiling of the log
quotient: the guard does not fire, every logarithm is of a positive finite
value, and the denominator is a nonzero negative real. -/
theorem forecast_eval (m : EfficiencyMonitor)
    (hct : m.currentEfficiency < m.targetEfficiency)
    (ht1 : m.targetEfficiency < 1) (ha0 : 0 < m.alpha) (ha1 : m.alpha < 1) :
    (forecastDaysToReachGoal m).1 = ForecastResult.val
      ⌈Real.log (((1 - m.targetEfficiency) / (1 - m.currentEfficiency) : ℚ))
        / Real.log ((1 - m.alpha : ℚ))⌉ := by
  have hc1 : m.currentEfficiency < 1 := hct.trans ht1
  have hy : (1 - m.currentEfficiency : ℚ) ≠ 0 := by
    intro h
    rw [sub_eq_zero] at h
    exact absurd h.symm (ne_of_lt hc1)
  have harg : (0:ℚ) < (1 - m.targetEfficiency) / (1 - m.currentEfficiency) :=
    div_pos (by linarith) (by linarith)
  have hargR : (0:ℝ) <
      (((1 - m.targetEfficiency) / (1 - m.currentEfficiency) : ℚ) : ℝ) := by
    exact_mod_cast harg
  have hA : (0:ℝ) < ((1 - m.alpha : ℚ) : ℝ) := by
    exact_mod_cast (by linarith : (0:ℚ) < 1 - m.alpha)
  have hA1 : ((1 - m.alpha : ℚ) : ℝ) < 1 := by
    exact_mod_cast (by linarith : (1 - m.alpha : ℚ) < 1)
  have hlogA : Real.log ((1 - m.alpha : ℚ) : ℝ) ≠ 0 :=
    ne_of_lt (Real.log_neg hA hA1)
  simp only [forecastDaysToReachGoal]
  rw [if_neg (not_le.2 hct)]
  have e1 : jsDivQ (1 - m.targetEfficiency) (1 - m.currentEfficiency)
      = JsNum.fin
          (((1 - m.targetEfficiency) / (1 - m.currentEfficiency) : ℚ) : ℝ) := by
    unfold jsDivQ
    rw [if_neg hy]
  rw [e1]
  have e2 : jsLog (JsNum.fin
        (((1 - m.targetEfficiency) / (1 - m.currentEfficiency) : ℚ) : ℝ))
      = JsNum.fin (Real.log
          (((1 - m.targetEfficiency) / (1 - m.currentEfficiency) : ℚ) : ℝ)) := by
    simp only [jsLog]
    rw [if_pos hargR]
  have e3 : jsLog (JsNum.fin ((1 - m.alpha : ℚ) : ℝ))
      = JsNum.fin (Real.log ((1 - m.alpha : ℚ) : ℝ)) := by
    simp only [jsLog]
    rw [if_pos hA]
  rw [e2, e3]
  simp only [jsDiv]
  rw [if_neg hlogA]
  simp only [jsCeil]

/-- Claim C2: for a tracker with `0 ≤ current < target < 1` and
`0 < alpha < 1` (and the data-model invariant of a positive severity cap),
the forecast is a positive integer `n` such that `n - 1` consecutive perfect
days leave the efficiency strictly below the target while `n` perfect days
reach it. -/
theorem claim_C2 (m : EfficiencyMonitor) (pr : List (String × ℚ))
    (hc0 : 0 ≤ m.currentEfficiency)
    (hct : m.currentEfficiency < m.targetEfficiency)
    (ht1 : m.targetEfficiency < 1) (ha0 : 0 < m.alpha) (ha1 : m.alpha < 1)
    (hmax : 0 < m.maxDailySeverity) :
    ∃ n : ℤ, (forecastDaysToReachGoal m).1 = ForecastResult.val n ∧ 0 < n ∧
      (runDays m pr (fun _ => []) (n.toNat - 1)).currentEfficiency
        < m.targetEfficiency ∧
      m.targetEfficiency
        ≤ (runDays m pr (fun _ => []) n.toNat).currentEfficiency := by
  have hc1 : m.currentEfficiency < 1 := hct.trans ht1
  set x : ℝ :=
    Real.log (((1 - m.targetEfficiency) / (1 - m.currentEfficiency) : ℚ))
      / Real.log ((1 - m.alpha : ℚ)) with hxdef
  have hT : (0:ℝ) < ((1 - m.targetEfficiency : ℚ) : ℝ) := by
    exact_mod_cast (by linarith : (0:ℚ) < 1 - m.targetEfficiency)
  have hC : (0:ℝ) < ((1 - m.currentEfficiency : ℚ) : ℝ) := by
    exact_mod_cast (by linarith : (0:ℚ) < 1 - m.currentEfficiency)
  have hargpos : (0:ℚ) < (1 - m.targetEfficiency) / (1 - m.currentEfficiency) :=
    div_pos (by linarith) (by linarith)
  have harglt : ((1 - m.targetEfficiency) / (1 - m.currentEfficiency) : ℚ) < 1 :=
    (div_lt_one (by linarith)).2 (by linarith)
  have hnum : Real.log
      (((1 - m.targetEfficiency) / (1 - m.currentEfficiency) : ℚ) : ℝ) < 0 :=
    Real.log_neg (by exact_mod_cast hargpos) (by exact_mod_cast harglt)
  have hden : Real.log ((1 - m.alpha : ℚ) : ℝ) < 0 :=
    Real.log_neg
      (by exact_mod_cast (by linarith : (0:ℚ) < 1 - m.alpha))
      (by exact_mod_cast (by linarith : (1 - m.alpha : ℚ) < 1))
  have hx0 : 0 < x := by
    rw [hxdef]
    exact div_pos_iff.2 (Or.inr ⟨hnum, hden⟩)
  have hn0 : 0 < ⌈x⌉ := Int.ceil_pos.2 hx0
  have hn1 : 1 ≤ ⌈x⌉.toNat := by
    have := Int.toNat_of_nonneg hn0.le
    omega
  have htoNat : ((⌈x⌉.toNat : ℕ) : ℝ) = ((⌈x⌉ : ℤ) : ℝ) := by
    exact_mod_cast Int.toNat_of_nonneg hn0.le
  refine ⟨⌈x⌉, forecast_eval m hct ht1 ha0 ha1, hn0, ?_, ?_⟩
  · rw [runDays_perfect_eff m pr hmax]
    refine not_le.1 (fun h => ?_)
    have hk := (ewma_threshold_iff m.currentEfficiency m.targetEfficiency
      m.alpha hct ht1 ha0 ha1 (⌈x⌉.toNat - 1)).1 h
    have hcast1 : ((⌈x⌉.toNat - 1 : ℕ) : ℝ) = ((⌈x⌉ : ℤ) : ℝ) - 1 := by
      rw [Nat.cast_sub hn1, Nat.cast_one, htoNat]
    rw [hcast1] at hk
    have hceil := Int.ceil_lt_add_one x
    rw [← hxdef] at hk
    linarith
  · rw [runDays_perfect_eff m pr hmax]
    refine (ewma_threshold_iff m.currentEfficiency m.targetEfficiency
      m.alpha hct ht1 ha0 ha1 ⌈x⌉.toNat).2 ?_
    rw [htoNat, ← hxdef]
    exact Int.le_ceil x

/-- Witness for C2: the tracker with target `0.75`, alpha `0.5`, current
efficiency `0.5`; here `n = 1` (one perfect day reaches the goal). -/
theorem claim_C2_wit :
    ∃ n : ℤ,
      (forecastDaysToReachGoal
          { targetEfficiency := 3/4, alpha := 1/2, maxDailySeverity := 10,
            currentEfficiency := 1/2, dayCount := 0 }).1
        = ForecastResult.val n ∧ 0 < n ∧
      (runDays
          { targetEfficiency := 3/4, alpha := 1/2, maxDailySeverity := 10,
            currentEfficiency := 1/2, dayCount := 0 }
          [] (fun _ => []) (n.toNat - 1)).currentEfficiency < 3/4 ∧
      (3/4 : ℚ)
        ≤ (runDays
            { targetEfficiency := 3/4, alpha := 1/2, maxDailySeverity := 10,
              currentEfficiency := 1/2, dayCount := 0 }
            [] (fun _ => []) n.toNat).currentEfficiency :=
  claim_C2
    { targetEfficiency := 3/4, alpha := 1/2, maxDailySeverity := 10,
      currentEfficiency := 1/2, dayCount := 0 }
    [] (by norm_num) (by norm_num) (by norm_num) (by norm_num) (by norm_num)
    (by norm_num)

/-! ## Claim C5: the ensemble keeps every final efficiency in [0,1] -/

/-- One `processDay` step keeps the efficiency in `[0,1]`: the new value is a
convex combination of the performance (in `[0,1]`) and the old efficiency. -/
theorem step_eff_mem (m : EfficiencyMonitor) (events : List String)
    (pr : List (String × ℚ)) (ha0 : 0 < m.alpha) (ha1 : m.alpha ≤ 1)
    (hmax : 0 < m.maxDailySeverity) (hpr : ∀ p ∈ pr, 0 ≤ p.2)
    (he0 : 0 ≤ m.currentEfficiency) (he1 : m.currentEfficiency ≤ 1) :
    0 ≤ (processDay m events pr).1.currentEfficiency ∧
      (processDay m events pr).1.currentEfficiency ≤ 1 := by
  have hb := dailyPerf_mem m events pr hmax hpr
  have heff : (processDay m events pr).1.currentEfficiency
      = m.alpha * (calculateDailyPerformance m events pr).2
        + (1 - m.alpha) * m.currentEfficiency := rfl
  rw [heff]
  have h1 : 0 ≤ m.alpha * (calculateDailyPerformance m events pr).2 :=
    mul_nonneg ha0.le hb.1
  have h2 : 0 ≤ (1 - m.alpha) * m.currentEfficiency :=
    mul_nonneg (by linarith) he0
  have h3 : m.alpha * (calculateDailyPerformance m events pr).2 ≤ m.alpha * 1 :=
    mul_le_mul_of_nonneg_left hb.2 ha0.le
  have h4 : (1 - m.alpha) * m.currentEfficiency ≤ (1 - m.alpha) * 1 :=
    mul_le_mul_of_nonneg_left he1 (by linarith)
  constructor
  · linarith
  · linarith

/-- `runDays` keeps the efficiency in `[0,1]` for every day count and every
event oracle. -/
theorem runDays_eff_mem (m : EfficiencyMonitor) (pr : List (String × ℚ))
    (ev : ℕ → List String) (ha0 : 0 < m.alpha) (ha1 : m.alpha ≤ 1)
    (hmax : 0 < m.maxDailySeverity) (hpr : ∀ p ∈ pr, 0 ≤ p.2)
    (he0 : 0 ≤ m.currentEfficiency) (he1 : m.currentEfficiency ≤ 1) :
    ∀ k, 0 ≤ (runDays m pr ev k).currentEfficiency ∧
      (runDays m pr ev k).currentEfficiency ≤ 1 := by
  intro k
  induction k with
  | zero => rw [runDays_zero]; exact ⟨he0, he1⟩
  | succ k ih =>
      rw [runDays_succ]
      refine step_eff_mem _ _ _ ?_ ?_ ?_ hpr ih.1 ih.2
      · rw [runDays_alpha]; exact ha0
      · rw [runDays_alpha]; exact ha1
      · rw [runDays_max]; exact hmax

/-- Claim C5: an ensemble of 100 runs of 25 units each, with the initial
efficiency derived as `max(0, 1 - badEvents/duration)`, a non-negative
non-empty severity profile, `alpha` in `(0,1]`, and a positive severity cap,
produces exactly 100 outcomes, each with final efficiency in `[0,1]`. -/
theorem claim_C5 (t a i mx bad dur : ℚ) (pr : List (String × ℚ))
    (ev : ℕ → ℕ → List String)
    (hbad : 0 ≤ bad) (hdur : 0 < dur) (hi : i = initialEff bad dur)
    (ha0 : 0 < a) (ha1 : a ≤ 1) (hmx : 0 < mx)
    (hpr : ∀ p ∈ pr, 0 ≤ p.2) (hpr0 : pr ≠ []) :
    ∃ outs : List RunOutcome,
      runMultipleSimulations 100 25 t a i mx pr ev = some outs ∧
      outs.length = 100 ∧
      ∀ o ∈ outs, 0 ≤ o.final_efficiency ∧ o.final_efficiency ≤ 1 := by
  have hctor : EfficiencyMonitor.construct t a i mx
      = some { targetEfficiency := t, alpha := a, maxDailySeverity := mx,
               currentEfficiency := i, dayCount := 0 } := by
    unfold EfficiencyMonitor.construct
    rw [if_neg]
    simp only [not_or, not_le, not_lt]
    exact ⟨ha0, ha1⟩
  have hi0 : 0 ≤ i := by
    rw [hi]
    exact le_max_left 0 _
  have hi1 : i ≤ 1 := by
    rw [hi]
    unfold initialEff
    have hq : 0 ≤ bad / dur := div_nonneg hbad hdur.le
    exact max_le (by norm_num) (by linarith)
  refine ⟨runOutcomes 100 25
      { targetEfficiency := t, alpha := a, maxDailySeverity := mx,
        currentEfficiency := i, dayCount := 0 } pr ev, ?_, ?_, ?_⟩
  · unfold runMultipleSimulations
    rw [hctor]
  · simp [runOutcomes]
  · intro o ho
    simp only [runOutcomes, List.mem_map] at ho
    obtain ⟨simId, _, rfl⟩ := ho
    exact runDays_eff_mem _ pr (ev simId) ha0 ha1 hmx hpr hi0 hi1 25

/-- Witness for C5: the spec's scenario parameters (`badEvents = 42`,
`duration = 120`, alpha `0.04`, cap `10`, target `0.85`), a one-entry
profile, and the constantly-perfect event oracle. -/
theorem claim_C5_wit :
    ∃ outs : List RunOutcome,
      runMultipleSimulations 100 25 (17/20) (1/25) (initialEff 42 120) 10
        [("late", 1)] (fun _ _ => []) = some outs ∧
      outs.length = 100 ∧
      ∀ o ∈ outs, 0 ≤ o.final_efficiency ∧ o.final_efficiency ≤ 1 :=
  claim_C5 (17/20) (1/25) (initialEff 42 120) 10 42 120 [("late", 1)]
    (fun _ _ => []) (by norm_num) (by norm_num) rfl (by norm_num)
    (by norm_num) (by norm_num)
    (by intro p hp
        simp only [List.mem_singleton] at hp
        rw [hp]
        norm_num)
    (by simp)

/-! ## Histogram lemmas (claims C6, C7) -/

theorem incFirst_some_spec (v : ℚ) :
    ∀ (bins bins2 : List HBin), incFirst v bins = some bins2 →
      binShape bins2 = binShape bins ∧ sumCounts bins2 = sumCounts bins + 1 := by
  intro bins
  induction bins with
  | nil => intro bins2 h; simp [incFirst] at h
  | cons b bs ih =>
      intro bins2 h
      by_cases hm : binMem b v
      · rw [incFirst, if_pos hm] at h
        obtain rfl : ({ b with count := b.count + 1 } :: bs) = bins2 :=
          Option.some_injective _ h
        constructor
        · simp [binShape]
        · simp [sumCounts]
          omega
      · rw [incFirst, if_neg hm] at h
        cases hh : incFirst v bs with
        | none => rw [hh] at h; simp at h
        | some bs2 =>
            rw [hh] at h
            rw [Option.map_some'] at h
            obtain rfl : (b :: bs2) = bins2 := Option.some_injective _ h
            have hspec := ih bs2 hh
            constructor
            · simp only [binShape, List.map_cons]
              exact congrArg _ hspec.1
            · simp [sumCounts] at hspec ⊢
              omega

theorem incFirst_none_spec (v : ℚ) :
    ∀ bins : List HBin, incFirst v bins = none →
      ∀ b ∈ bins, binMem b v = false := by
  intro bins
  induction bins with
  | nil => intro _ b hb; simp at hb
  | cons b bs ih =>
      intro h c hc
      by_cases hm : binMem b v
      · rw [incFirst, if_pos hm] at h; simp at h
      · rw [incFirst, if_neg hm] at h
        rcases List.mem_cons.1 hc with rfl | hc2
        · exact Bool.eq_false_iff.2 hm
        · cases hh : incFirst v bs with
          | none => exact ih hh c hc2
          | some bs2 => rw [hh] at h; simp at h

theorem incLast_spec :
    ∀ bins : List HBin, bins ≠ [] →
      binShape (incLast bins) = binShape bins ∧
      sumCounts (incLast bins) = sumCounts bins + 1 := by
  intro bins
  induction bins with
  | nil => intro h; exact absurd rfl h
  | cons b bs ih =>
      intro _
      cases bs with
      | nil => simp [incLast, binShape, sumCounts]
      | cons b2 bs2 =>
          have hspec := ih (by simp)
          rw [incLast]
          constructor
          · simp [binShape] at hspec ⊢
            exact hspec.1
          · simp [sumCounts] at hspec ⊢
            omega

theorem addValue_spec (mx v : ℚ) (bins : List HBin) (hne : bins ≠ [])
    (hcov : (∃ b ∈ bins, binMem b v = true) ∨ mx ≤ v) :
    binShape (addValue mx bins v) = binShape bins ∧
    sumCounts (addValue mx bins v) = sumCounts bins + 1 := by
  unfold addValue
  cases hh : incFirst v bins with
  | some bins2 => exact incFirst_some_spec v bins bins2 hh
  | none =>
      have hno := incFirst_none_spec v bins hh
      have hmx : mx ≤ v := by
        rcases hcov with ⟨b, hb, hbm⟩ | h
        · rw [hno b hb] at hbm; exact absurd hbm (by simp)
        · exact h
      rw [if_pos hmx]
      exact incLast_spec bins hne

theorem incLast_length : ∀ bins : List HBin, (incLast bins).length = bins.length := by
  intro bins
  induction bins with
  | nil => rfl
  | cons b bs ih =>
      cases bs with
      | nil => rfl
      | cons b2 bs2 => rw [incLast]; simpa using ih

theorem addValue_length (mx v : ℚ) (bins : List HBin) :
    (addValue mx bins v).length = bins.length := by
  unfold addValue
  cases hh : incFirst v bins with
  | some bins2 =>
      have := (incFirst_some_spec v bins bins2 hh).1
      have hlen := congrArg List.length this
      simpa [binShape] using hlen
  | none =>
      by_cases hmx : mx ≤ v
      · rw [if_pos hmx]; exact incLast_length bins
      · rw [if_neg hmx]

theorem foldl_addValue_length (mx : ℚ) :
    ∀ (data : List ℚ) (bins : List HBin),
      (data.foldl (addValue mx) bins).length = bins.length := by
  intro data
  induction data with
  | nil => intro bins; rfl
  | cons v vs ih =>
      intro bins
      simp only [List.foldl_cons]
      rw [ih (addValue mx bins v), addValue_length]

theorem foldl_addValue_sum (mx : ℚ) :
    ∀ (data : List ℚ) (bins : List HBin), bins ≠ [] →
      (∀ v ∈ data, (∃ p ∈ binShape bins, pairMem v p = true) ∨ mx ≤ v) →
      sumCounts (data.foldl (addValue mx) bins)
        = sumCounts bins + data.length := by
  intro data
  induction data with
  | nil => intro bins _ _; simp
  | cons v vs ih =>
      intro bins hne hcov
      have hc1 : (∃ b ∈ bins, binMem b v = true) ∨ mx ≤ v := by
        rcases hcov v (by simp) with ⟨p, hp, hpm⟩ | h
        · left
          simp only [binShape, List.mem_map] at hp
          obtain ⟨b, hb, rfl⟩ := hp
          exact ⟨b, hb, hpm⟩
        · right; exact h
      have hspec := addValue_spec mx v bins hne hc1
      have hne2 : addValue mx bins v ≠ [] := by
        intro h0
        have hsh : binShape (addValue mx bins v) = [] := by rw [h0]; rfl
        rw [hspec.1] at hsh
        cases bins with
        | nil => exact hne rfl
        | cons c cs => simp [binShape] at hsh
      have hcov2 : ∀ w ∈ vs,
          (∃ p ∈ binShape (addValue mx bins v), pairMem w p = true) ∨ mx ≤ w := by
        intro w hw
        rw [hspec.1]
        exact hcov w (by simp [hw])
      simp only [List.foldl_cons]
      rw [ih (addValue mx bins v) hne2 hcov2, hspec.2]
      simp only [List.length_cons]
      omega

theorem foldl_min_le_init : ∀ (l : List ℚ) (a : ℚ), l.foldl min a ≤ a := by
  intro l
  induction l with
  | nil => intro a; simp
  | cons x xs ih =>
      intro a
      simp only [List.foldl_cons]
      exact le_trans (ih (min a x)) (min_le_left a x)

theorem foldl_min_le : ∀ (l : List ℚ) (a x : ℚ), x ∈ l → l.foldl min a ≤ x := by
  intro l
  induction l with
  | nil => intro a x h; simp at h
  | cons y ys ih =>
      intro a x h
      simp only [List.foldl_cons]
      rcases List.mem_cons.1 h with rfl | h2
      · exact le_trans (foldl_min_le_init ys (min a x)) (min_le_right a x)
      · exact ih (min a y) x h2

theorem le_foldl_max_init : ∀ (l : List ℚ) (a : ℚ), a ≤ l.foldl max a := by
  intro l
  induction l with
  | nil => intro a; simp
  | cons x xs ih =>
      intro a
      simp only [List.foldl_cons]
      exact le_trans (le_max_left a x) (ih (max a x))

theorem le_foldl_max : ∀ (l : List ℚ) (a x : ℚ), x ∈ l → x ≤ l.foldl max a := by
  intro l
  induction l with
  | nil => intro a x h; simp at h
  | cons y ys ih =>
      intro a x h
      simp only [List.foldl_cons]
      rcases List.mem_cons.1 h with rfl | h2
      · exact le_trans (le_max_right a x) (le_foldl_max_init ys (max a x))
      · exact ih (max a y) x h2

/-- Every element of a bin list built by `baseBins` starts with count 0. -/
theorem baseBins_count (mn bs : ℚ) (N : ℕ) :
    ∀ b ∈ baseBins mn bs N, b.count = 0 := by
  intro b hb
  simp only [baseBins, List.mem_map] at hb
  obtain ⟨i, _, rfl⟩ := hb
  rfl

theorem sumCounts_eq_zero {bins : List HBin} (h : ∀ b ∈ bins, b.count = 0) :
    sumCounts bins = 0 := by
  unfold sumCounts
  refine List.sum_eq_zero ?_
  intro x hx
  obtain ⟨b, hb, rfl⟩ := List.mem_map.1 hx
  exact h b hb

theorem sumCounts_histBins (mn mx : ℚ) (N : ℕ) :
    sumCounts (histBins mn mx N) = 0 := by
  unfold histBins
  by_cases hpos : 0 < (mx - mn) / (N : ℚ)
  · rw [if_pos hpos]
    refine sumCounts_eq_zero ?_
    intro b hb
    rcases List.mem_append.1 hb with h | h
    · exact baseBins_count _ _ _ b h
    · simp only [List.mem_singleton] at h
      rw [h]
  · rw [if_neg hpos]
    refine sumCounts_eq_zero ?_
    intro b hb
    rcases List.mem_cons.1 hb with rfl | h
    · rfl
    · exact baseBins_count _ _ _ b (List.mem_of_mem_tail h)

theorem histBins_ne_nil (mn mx : ℚ) (N : ℕ) :
    histBins mn mx N ≠ [] := by
  unfold histBins
  by_cases hpos : 0 < (mx - mn) / (N : ℚ)
  · rw [if_pos hpos]; simp
  · rw [if_neg hpos]; simp

/-- The regular bins tile `[mn, mx)`: every value strictly below the maximum
falls in the `i`-th half-open bin for `i = floor((v - mn) / binSize)`. -/
theorem tiling (mn mx : ℚ) (N : ℕ) (hN : 1 ≤ N) (hlt : mn < mx) (v : ℚ)
    (h1 : mn ≤ v) (h2 : v < mx) :
    ∃ i : ℕ, i < N ∧ mn + (i : ℚ) * ((mx - mn) / (N : ℚ)) ≤ v ∧
      v < mn + ((i : ℚ) + 1) * ((mx - mn) / (N : ℚ)) := by
  have hNQ : (0:ℚ) < (N : ℚ) := by exact_mod_cast (by omega : 0 < N)
  have hbs0 : 0 < (mx - mn) / (N : ℚ) := div_pos (by linarith) hNQ
  set bs : ℚ := (mx - mn) / (N : ℚ) with hbs
  set q : ℚ := (v - mn) / bs with hq
  have hq0 : 0 ≤ q := div_nonneg (by linarith) hbs0.le
  have hNbs : (N : ℚ) * bs = mx - mn := by
    rw [hbs, mul_comm, div_mul_cancel₀ _ (ne_of_gt hNQ)]
  have hqN : q < (N : ℚ) := by
    rw [hq, div_lt_iff hbs0, hNbs]
    linarith
  have hfl0 : 0 ≤ ⌊q⌋ := Int.floor_nonneg.2 hq0
  have hflN : ⌊q⌋ < (N : ℤ) := Int.floor_lt.2 (by exact_mod_cast hqN)
  have hcast : ((⌊q⌋.toNat : ℕ) : ℚ) = ((⌊q⌋ : ℤ) : ℚ) := by
    exact_mod_cast Int.toNat_of_nonneg hfl0
  have hqbs : q * bs = v - mn := by
    rw [hq, div_mul_cancel₀ _ (ne_of_gt hbs0)]
  have hlo : ((⌊q⌋ : ℚ)) * bs ≤ v - mn := by
    rw [← hqbs]
    exact mul_le_mul_of_nonneg_right (Int.floor_le q) hbs0.le
  have hhi : v - mn < ((⌊q⌋ : ℚ) + 1) * bs := by
    rw [← hqbs]
    exact mul_lt_mul_of_pos_right (Int.lt_floor_add_one q) hbs0
  refine ⟨⌊q⌋.toNat, ?_, ?_, ?_⟩
  · have : (⌊q⌋.toNat : ℤ) < (N : ℤ) := by
      rw [Int.toNat_of_nonneg hfl0]
      exact hflN
    exact_mod_cast this
  · rw [hcast]
    linarith
  · rw [hcast]
    linarith

/-- Coverage of the initial bin list: every data value between the minimum and
the maximum either matches some bin or is at least the maximum (and is then
caught by the final-bin fallback). -/
theorem histBins_cov (mn mx : ℚ) (N : ℕ) (hN : 1 ≤ N) (v : ℚ)
    (hv1 : mn ≤ v) (hv2 : v ≤ mx) :
    (∃ p ∈ binShape (histBins mn mx N), pairMem v p = true) ∨ mx ≤ v := by
  by_cases hpos : 0 < (mx - mn) / (N : ℚ)
  · by_cases hvmx : v < mx
    · left
      have hNQ : (0:ℚ) < (N : ℚ) := by exact_mod_cast (by omega : 0 < N)
      have hlt : mn < mx := by
        by_contra hc
        push_neg at hc
        have hle : (mx - mn) / (N : ℚ) ≤ 0 :=
          div_nonpos_of_nonpos_of_nonneg (by linarith) hNQ.le
        exact absurd hpos (not_lt.2 hle)
      obtain ⟨i, hiN, hlo, hhi⟩ := tiling mn mx N hN hlt v hv1 hvmx
      refine ⟨(mn + (i : ℚ) * ((mx - mn) / (N : ℚ)),
        some (mn + ((i : ℚ) + 1) * ((mx - mn) / (N : ℚ)))), ?_, ?_⟩
      · have hshape : binShape (histBins mn mx N)
            = (List.range N).map (fun (j : ℕ) =>
                (mn + (j : ℚ) * ((mx - mn) / (N : ℚ)),
                 some (mn + ((j : ℚ) + 1) * ((mx - mn) / (N : ℚ)))))
              ++ [(mx, (none : Option ℚ))] := by
          unfold histBins
          rw [if_pos hpos]
          unfold binShape baseBins
          rw [List.map_append, List.map_map]
          rfl
        rw [hshape]
        apply List.mem_append_left
        exact List.mem_map.2 ⟨i, List.mem_range.2 hiN, rfl⟩
      · simp only [pairMem, ltHiB]
        rw [decide_eq_true hlo, decide_eq_true hhi]
        rfl
    · right
      push_neg at hvmx
      exact hvmx
  · right
    push_neg at hpos
    have hNQ : (0:ℚ) < (N : ℚ) := by exact_mod_cast (by omega : 0 < N)
    have hmxmn : mx - mn ≤ 0 := by
      by_contra hc
      push_neg at hc
      exact absurd (div_pos hc hNQ) (not_lt.2 hpos)
    linarith

/-! ## Claim C7 -/

/-- Claim C7: for every non-empty data list and `numBins ≥ 1`, the bin counts
of `createHistogramData` sum to exactly the number of values: every value
lands in exactly one bin (the half-open regular bins tile `[min, max)`, and
the maximum is caught by the final bin or the `value >= max` fallback). -/
theorem claim_C7 (data : List ℚ) (numBins : ℕ) (hne : data ≠ [])
    (hN : 1 ≤ numBins) :
    sumCounts (createHistogramData data numBins) = data.length := by
  obtain ⟨d, ds, rfl⟩ := List.exists_cons_of_ne_nil hne
  have hminle : ∀ v ∈ d :: ds, ds.foldl min d ≤ v := by
    intro v hv
    rcases List.mem_cons.1 hv with rfl | h
    · exact foldl_min_le_init ds v
    · exact foldl_min_le ds d v h
  have hmaxge : ∀ v ∈ d :: ds, v ≤ ds.foldl max d := by
    intro v hv
    rcases List.mem_cons.1 hv with rfl | h
    · exact le_foldl_max_init ds v
    · exact le_foldl_max ds d v h
  have hcov : ∀ v ∈ d :: ds,
      (∃ p ∈ binShape (histBins (ds.foldl min d) (ds.foldl max d) numBins),
        pairMem v p = true) ∨ ds.foldl max d ≤ v := by
    intro v hv
    exact histBins_cov (ds.foldl min d) (ds.foldl max d) numBins hN v
      (hminle v hv) (hmaxge v hv)
  have hsum := foldl_addValue_sum (ds.foldl max d) (d :: ds)
    (histBins (ds.foldl min d) (ds.foldl max d) numBins)
    (histBins_ne_nil _ _ _) hcov
  simp only [createHistogramData]
  rw [hsum, sumCounts_histBins]
  simp

/-- Witness for C7: two distinct values and a single bin. -/
theorem claim_C7_wit : sumCounts (createHistogramData [(1:ℚ), 2] 1) = 2 := by
  have h := claim_C7 [(1:ℚ), 2] 1 (by simp) (by norm_num)
  simpa using h

/-! ## Claim C6 -/

theorem foldl_min_const (v : ℚ) :
    ∀ ds : List ℚ, (∀ x ∈ ds, x = v) → ds.foldl min v = v := by
  intro ds
  induction ds with
  | nil => intro _; rfl
  | cons x xs ih =>
      intro h
      have hx : x = v := h x (by simp)
      simp only [List.foldl_cons, hx, min_self]
      exact ih (fun y hy => h y (by simp [hy]))

theorem foldl_max_const (v : ℚ) :
    ∀ ds : List ℚ, (∀ x ∈ ds, x = v) → ds.foldl max v = v := by
  intro ds
  induction ds with
  | nil => intro _; rfl
  | cons x xs ih =>
      intro h
      have hx : x = v := h x (by simp)
      simp only [List.foldl_cons, hx, max_self]
      exact ih (fun y hy => h y (by simp [hy]))

/-- In the degenerate all-equal case the single remaining bin is the
replaced `bins[0]`, and since its half-open interval `[v, v)` is empty, each
value is counted through the `value >= max` fallback into the last bin. -/
theorem addValue_single (v : ℚ) (k : ℕ) :
    addValue v [{ label := BinLabel.single v, count := k, lo := v, hi := some v }] v
      = [{ label := BinLabel.single v, count := k + 1, lo := v, hi := some v }] := by
  have hbm : binMem
      { label := BinLabel.single v, count := k, lo := v, hi := some v } v = false := by
    simp [binMem, ltHiB]
  have hif : incFirst v
      [{ label := BinLabel.single v, count := k, lo := v, hi := some v }] = none := by
    rw [incFirst, if_neg (by simp [hbm])]
    rfl
  unfold addValue
  rw [hif, if_pos (le_refl v)]
  rfl

theorem foldl_addValue_single (v : ℚ) :
    ∀ (l : List ℚ), (∀ x ∈ l, x = v) → ∀ k : ℕ,
      l.foldl (addValue v)
          [{ label := BinLabel.single v, count := k, lo := v, hi := some v }]
        = [{ label := BinLabel.single v, count := k + l.length, lo := v,
             hi := some v }] := by
  intro l
  induction l with
  | nil => intro _ k; simp
  | cons x xs ih =>
      intro h k
      have hx : x = v := h x (by simp)
      simp only [List.foldl_cons]
      rw [hx, addValue_single]
      rw [ih (fun y hy => h y (by simp [hy])) (k + 1)]
      have harith : k + 1 + xs.length = k + (xs.length + 1) := by omega
      simp only [List.length_cons]
      rw [harith]

/-- Claim C6, amended: with `numBins = 1` and a non-empty all-identical data
list, `createHistogramData` returns exactly one bin, labeled with the common
value, whose count is the number of values.  (For `numBins ≥ 2` the claim
fails: see the counterexample.) -/
theorem claim_C6 (data : List ℚ) (v : ℚ) (hne : data ≠ [])
    (hall : ∀ x ∈ data, x = v) :
    createHistogramData data 1
      = [{ label := BinLabel.single v, count := data.length, lo := v,
           hi := some v }] := by
  obtain ⟨d, ds, rfl⟩ := List.exists_cons_of_ne_nil hne
  have hd : d = v := hall d (by simp)
  have hds : ∀ x ∈ ds, x = v := fun x hx => hall x (by simp [hx])
  have hmn : ds.foldl min d = v := by rw [hd]; exact foldl_min_const v ds hds
  have hmx : ds.foldl max d = v := by rw [hd]; exact foldl_max_const v ds hds
  have hbins : histBins v v 1
      = [{ label := BinLabel.single v, count := 0, lo := v, hi := some v }] := by
    unfold histBins
    rw [if_neg (by norm_num)]
    simp [baseBins]
  simp only [createHistogramData]
  rw [hmn, hmx, hbins]
  rw [foldl_addValue_single v (d :: ds) hall 0]
  simp

/-- Witness for C6 (amended): the two-element list `[5, 5]` with one bin. -/
theorem claim_C6_wit :
    createHistogramData [(5:ℚ), 5] 1
      = [{ label := BinLabel.single 5, count := 2, lo := 5, hi := some 5 }] := by
  have h := claim_C6 [(5:ℚ), 5] 5 (by simp)
    (by intro x hx
        rcases List.mem_cons.1 hx with rfl | hx2
        · rfl
        · simpa using hx2)
  simpa using h

/-- Counterexample to C6 as stated: with all values equal to 5 but
`numBins = 2`, `createHistogramData` returns two bins, not one — only
`bins[0]` is replaced by the degenerate bin, the other regular bin stays
(and even collects the counts, being the last bin). -/
theorem claim_C6_cex :
    (createHistogramData [(5:ℚ), 5] 2).length = 2 ∧ (2:ℕ) ≠ 1 := by
  constructor
  · simp only [createHistogramData]
    rw [foldl_addValue_length]
    have hmn : ([(5:ℚ)]).foldl min 5 = 5 := by simp
    have hmx : ([(5:ℚ)]).foldl max 5 = 5 := by simp
    rw [hmn, hmx]
    unfold histBins
    rw [if_neg (by norm_num)]
    simp [baseBins]
  · norm_num

/-! ## Claim C9: moving-average smoothing -/

theorem movAux_nil_of_lt (w : ℕ) :
    ∀ xs : List ℚ, xs.length < w → movAux w xs = [] := by
  intro xs h
  cases xs with
  | nil => rfl
  | cons x xs2 =>
      rw [movAux, if_neg (by simp at h ⊢; omega)]

theorem movAux_length (w : ℕ) (hw : 1 ≤ w) :
    ∀ xs : List ℚ, w ≤ xs.length → (movAux w xs).length = xs.length - w + 1 := by
  intro xs
  induction xs with
  | nil =>
      intro h
      simp at h
      omega
  | cons x xs2 ih =>
      intro h
      simp only [List.length_cons] at h
      rw [movAux, if_pos h]
      by_cases h2 : w ≤ xs2.length
      · simp only [List.length_cons]
        rw [ih h2]
        omega
      · rw [movAux_nil_of_lt w xs2 (by omega)]
        simp only [List.length_cons, List.length_nil]
        omega

theorem movingAverage_length (xs : List ℚ) (w : ℕ) (h1 : 1 < w)
    (h2 : w ≤ xs.length) :
    (movingAverage xs w).length = xs.length - w + 1 := by
  unfold movingAverage
  rw [if_neg (by push_neg; exact ⟨h1, h2⟩)]
  exact movAux_length w (by omega) xs h2

theorem movingAverage_id (xs : List ℚ) (w : ℕ) (h : w ≤ 1 ∨ xs.length < w) :
    movingAverage xs w = xs := by
  unfold movingAverage
  rw [if_pos h]

/-- Claim C9, amended: the moving-average smoothing operation — absent from
the source renderer and therefore modelled from the spec — returns a series
of length `n - w + 1` when `1 < w ≤ n` and the input unchanged when `w > n`
or `w ≤ 1`.  The claim's second half is false on the code: `renderCharts`
applies no smoothing for any ensemble size (see the counterexample). -/
theorem claim_C9 : ∀ (xs : List ℚ) (w : ℕ),
    (1 < w → w ≤ xs.length → (movingAverage xs w).length = xs.length - w + 1) ∧
    (w ≤ 1 ∨ xs.length < w → movingAverage xs w = xs) := by
  intro xs w
  exact ⟨fun h1 h2 => movingAverage_length xs w h1 h2,
    fun h => movingAverage_id xs w h⟩

/-- Witness for C9 (amended): a window of 2 over 3 points gives 2 points, a
window of 4 over 3 points returns the input unchanged. -/
theorem claim_C9_wit :
    (movingAverage [(1:ℚ), 2, 3] 2).length = 3 - 2 + 1 ∧
    movingAverage [(1:ℚ), 2, 3] 4 = [1, 2, 3] :=
  ⟨by
    have h := (claim_C9 [(1:ℚ), 2, 3] 2).1 (by norm_num) (by simp)
    simpa using h,
   (claim_C9 [(1:ℚ), 2, 3] 4).2 (by simp)⟩

/-- Counterexample to C9 as stated: for an ensemble of 101 runs (past the
100-run threshold) the efficiency line series handed to the chart by
`renderCharts` is the raw 101-point per-run series; it is not equal to its
smoothing with the spec's window `max(10, floor(numRuns/20))`, whose length
would be 92 — the renderer never smooths. -/
theorem claim_C9_cex :
    100 < outcomes101.length ∧
    movingAverage (effLineSeries outcomes101)
        (max 10 (outcomes101.length / 20))
      ≠ effLineSeries outcomes101 := by
  have hlen : (effLineSeries outcomes101).length = 101 := by
    simp [effLineSeries, outcomes101]
  have hout : outcomes101.length = 101 := by simp [outcomes101]
  constructor
  · rw [hout]
    norm_num
  · intro heq
    have hw : max 10 (outcomes101.length / 20) = 10 := by
      rw [hout]
      decide
    have hml := movingAverage_length (effLineSeries outcomes101) 10
      (by norm_num) (by rw [hlen]; norm_num)
    rw [hw] at heq
    have hlens := congrArg List.length heq
    rw [hml, hlen] at hlens
    norm_num at hlens
